import Mathlib

set_option maxHeartbeats 1000000
set_option maxRecDepth 4000

/-!
Verification development for the `baml-lib` schema-directed coercion engine.

The definitions below are a shallow embedding of the Rust sources under
`baml-lib/`:

* `jsonish/src/deserializer/coercer/ir_ref/coerce_enum.rs`
  (`enum_match_candidates`, `impl TypeCoercer for Enum`);
* `baml/src/lib.rs` (`BamlContext::try_from_schema`, `build_target_type`,
  `build_output_format`, `validate_result`);
* `baml/src/type_convert.rs` (`to_raw_field_type`);
* `baml-core/src/ir/repr.rs` (`WithRepr<FieldType> for ast::FieldType`,
  `type_with_arity`);
* `schema-ast/src/parser/parse_schema.rs` (`parse_schema`).

Repository code that the sources above call but whose definition is not part
of the repository snapshot (the jsonish `match_string` string matcher, the
jsonish `apply_constraints` constraint checker, the `internal_baml_jinja`
`Name` / `Enum` / `Class` / `OutputFormatContent` containers, the
`baml_types` value and serializer types, and the pest grammar itself) is
modelled from the specification; each such definition carries a doc comment
saying so.
-/

/-! ## baml_types: field types and constraints -/

/-- Modelled from the spec: `baml_types::TypeValue`, the primitive kinds of
the target-type language (missing from the snapshot; pinned by its uses in
`type_convert.rs` and `repr.rs`). -/
inductive TypeValue where
  | string
  | int
  | float
  | bool
  | null
deriving DecidableEq, Repr

/-- Modelled from the spec: `baml_types::LiteralValue` (missing from the
snapshot), literal target types. Floating literals are not modelled. -/
inductive LiteralValue where
  | string (s : String)
  | int (i : Int)
  | bool (b : Bool)
deriving DecidableEq, Repr

/-- Modelled from the spec: `baml_types::FieldType`, the resolved target-type
graph of section 3 of the spec (missing from the snapshot; its variants are
pinned by `type_convert.rs`, `repr.rs` and `lib.rs`). `Map` keeps its key and
value as two fields rather than a boxed pair. -/
inductive FieldType where
  | Primitive (tv : TypeValue)
  | Enum (name : String)
  | Literal (v : LiteralValue)
  | Class (name : String)
  | List (inner : FieldType)
  | Map (key : FieldType) (value : FieldType)
  | Union (ts : List FieldType)
  | Tuple (ts : List FieldType)
  | Optional (inner : FieldType)
  | RecursiveTypeAlias (name : String)

/-- Modelled from the spec: `baml_types::ConstraintLevel` (missing from the
snapshot): a constraint is either a non-fatal `@check` or a fatal `@assert`. -/
inductive ConstraintLevel where
  | check
  | assert
deriving DecidableEq, Repr

/-- Modelled from the spec: `baml_types::Constraint` (missing from the
snapshot): a constraint expression with its level and optional label. -/
structure Constraint where
  level : ConstraintLevel
  expression : String
  label : Option String
deriving DecidableEq, Repr

/-! ## internal_baml_jinja: names, enums, classes, output format -/

/-- Modelled from the spec: `internal_baml_jinja::types::Name` (missing from
the snapshot). A name has a real (declared) form and an optional rendered
form; `rendered_name` falls back to the real name. Only `Name::new`,
`real_name` and `rendered_name` are used by the code under the snapshot. -/
structure Name where
  name : String
  rendered : Option String
deriving DecidableEq, Repr

/-- Modelled from the spec: `Name::new`, the single-argument constructor used
by `BamlContext::build_output_format`: real and rendered name coincide. -/
def Name.new (n : String) : Name := ⟨n, none⟩

def Name.real_name (n : Name) : String := n.name

def Name.rendered_name (n : Name) : String := n.rendered.getD n.name

/-- Modelled from the spec: `internal_baml_jinja::types::Enum` (missing from
the snapshot): an enum as handed to the coercer, with per-value optional
description, exactly the shape built by `build_output_format`. -/
structure JinjaEnum where
  name : Name
  values : List (Name × Option String)
  constraints : List Constraint
deriving DecidableEq, Repr

/-- Modelled from the spec: `internal_baml_jinja::types::Class` (missing from
the snapshot): a class as handed to the coercer, with per-field type and
optional description, exactly the shape built by `build_output_format`. -/
structure JinjaClass where
  name : Name
  fields : List (Name × FieldType × Option String)
  constraints : List Constraint

/-- Modelled from the spec: `internal_baml_jinja::types::OutputFormatContent`
(missing from the snapshot): the read-only schema registry view of section 2
of the spec, carrying the declared enums and classes and the target type. -/
structure OutputFormatContent where
  enums : List JinjaEnum
  classes : List JinjaClass
  target : FieldType

/-- Modelled from the spec: `OutputFormatContent::find_enum` (missing from
the snapshot): look up an enum definition by its real name in the registry. -/
def OutputFormatContent.find_enum (of : OutputFormatContent) (n : String) :
    Option JinjaEnum :=
  of.enums.find? (fun e => e.name.real_name == n)

/-! ## jsonish: values, flags, parsing context, errors -/

/-- Modelled from the spec: the generic parsed `Value` tree of section 3
(the jsonish parser is missing from the snapshot). Only the constructors
needed by string matching are modelled; numbers are modelled as integers. -/
inductive JValue where
  | Null
  | Bool (b : Bool)
  | Number (n : Int)
  | String (s : String)
  | Array (items : List JValue)

/-- Which step of the string matcher produced a match (section 4.2 of the
spec: exact, case-insensitive, substring containment, or scored). -/
inductive MatchKind where
  | exact
  | caseInsensitive
  | substring
  | scored
deriving DecidableEq, Repr

/-- Modelled from the spec: the per-node flags of `BamlValueWithFlags`
(section 3 of the spec; the jsonish flag type is missing from the snapshot).
`assertFailure` exists in the taxonomy so that the invariant "a fatal assert
failure never appears as a flag on a success" is expressible. -/
inductive VFlag where
  | stringMatch (kind : MatchKind)
  | checkResult (label : Option String) (expression : String) (passed : Bool)
  | assertFailure (expression : String)
deriving DecidableEq, Repr

def VFlag.isAssertFailure : VFlag → Bool
  | .assertFailure _ => true
  | _ => false

/-- A scalar value annotated with flags, as carried inside
`BamlValueWithFlags::Enum` (spec section 3). -/
structure ValueWithFlags where
  value : String
  flags : List VFlag
deriving DecidableEq, Repr

/-- Modelled from the spec: `BamlValueWithFlags`, the typed flag-annotated
coercion result of section 3 (missing from the snapshot); only the node
shapes reached by the embedded code paths are included, and the completion
marker is not modelled. -/
inductive BamlValueWithFlags where
  | Null (flags : List VFlag)
  | Bool (b : Bool) (flags : List VFlag)
  | Int (i : Int) (flags : List VFlag)
  | String (s : String) (flags : List VFlag)
  | Enum (enumName : String) (v : ValueWithFlags)
  | List (items : List BamlValueWithFlags) (flags : List VFlag)

/-- Append one flag to the top node of a flagged value (the flag lists of
section 3 are append-only annotations). -/
def BamlValueWithFlags.addFlag : BamlValueWithFlags → VFlag → BamlValueWithFlags
  | .Null fs, f => .Null (fs ++ [f])
  | .Bool b fs, f => .Bool b (fs ++ [f])
  | .Int i fs, f => .Int i (fs ++ [f])
  | .String s fs, f => .String s (fs ++ [f])
  | .Enum n v, f => .Enum n ⟨v.value, v.flags ++ [f]⟩
  | .List xs fs, f => .List xs (fs ++ [f])

/-- The flags of the top node of a flagged value. -/
def topFlagsOf : BamlValueWithFlags → List VFlag
  | .Null fs => fs
  | .Bool _ fs => fs
  | .Int _ fs => fs
  | .String _ fs => fs
  | .Enum _ v => v.flags
  | .List _ fs => fs

/-- Modelled from the spec: the reasons of `ParsingError` (section 3; the
jsonish error type is missing from the snapshot). `noCandidateMatched`
carries the canonical names of every candidate considered. -/
inductive ErrorReason where
  | typeMismatch
  | noCandidateMatched (tried : List String)
  | assertFailed (expression : String)
  | missingRequiredField (name : String)
  | recursionLimitExceeded
  | unparsable (raw : String)
deriving DecidableEq, Repr

/-- Modelled from the spec: `ParsingError` (section 3), a failure scope path
together with its reason. -/
structure ParsingError where
  scope : List String
  reason : ErrorReason
deriving DecidableEq, Repr

/-- Modelled from the spec: `ParsingContext` (section 3): the registry
reference and the diagnostic scope path. The recursion-depth counter and
strictness flag are not read by any embedded code path and are omitted. -/
structure ParsingContext where
  of : OutputFormatContent
  scope : List String

/-! ## baml_types: plain values -/

/-- Modelled from the spec: `baml_types::BamlValue` (missing from the
snapshot), the plain typed value that callers project a `BamlValueWithFlags`
to, discarding flags (spec section 6). Maps/classes/floats/media are not
reached by the embedded code paths and are omitted. -/
inductive BamlValue where
  | Null
  | Bool (b : Bool)
  | Int (i : Int)
  | String (s : String)
  | Enum (enumName : String) (value : String)
  | List (items : List BamlValue)

mutual

/-- Modelled from the spec: the `From<BamlValueWithFlags> for BamlValue`
projection (spec section 6: "callers typically project this to a plain typed
value for presentation, discarding flags"). -/
def toBamlValue : BamlValueWithFlags → BamlValue
  | .Null _ => .Null
  | .Bool b _ => .Bool b
  | .Int i _ => .Int i
  | .String s _ => .String s
  | .Enum n v => .Enum n v.value
  | .List xs _ => .List (toBamlValueList xs)

def toBamlValueList : List BamlValueWithFlags → List BamlValue
  | [] => []
  | x :: xs => toBamlValue x :: toBamlValueList xs

end

/-! ## String matcher (spec section 4.2) -/

/-- Lower-case the characters of a string (matcher normalization). -/
def lowerChars (s : String) : List Char := s.toList.map Char.toLower

/-- Trim leading and trailing whitespace from a character list. -/
def trimChars (cs : List Char) : List Char :=
  ((cs.dropWhile Char.isWhitespace).reverse.dropWhile Char.isWhitespace).reverse

/-- Embeds Rust's `str::trim`: remove leading and trailing whitespace
(written structurally so that it evaluates by reduction). -/
def strTrim (s : String) : String := String.mk (trimChars s.toList)

/-- Case- and whitespace-normalize a string for matcher steps 2-4. -/
def normChars (s : String) : List Char := trimChars (lowerChars s)

/-- Containment of one character list in another, for matcher step 3. -/
def isSubChars (needle : List Char) : List Char → Bool
  | [] => needle.isEmpty
  | c :: rest => List.isPrefixOf needle (c :: rest) || isSubChars needle rest

/-- Split a character list on whitespace, accumulating the current token
(written structurally so that it evaluates by reduction). -/
def splitWs : List Char → List Char → List (List Char)
  | [], acc => [acc.reverse]
  | c :: rest, acc =>
      if c.isWhitespace then acc.reverse :: splitWs rest []
      else splitWs rest (c :: acc)

/-- Normalized whitespace-separated tokens of a string, for matcher step 4. -/
def tokensOf (s : String) : List (List Char) :=
  ((splitWs s.toList []).map (fun t => t.map Char.toLower)).filter
    (fun t => !t.isEmpty)

/-- Token-overlap score of one alias string against the input (matcher
step 4): the number of alias tokens that also occur in the input. -/
def tokenScore (input al : String) : Nat :=
  (tokensOf al).countP (fun t => (tokensOf input).contains t)

/-- Best token-overlap score of a candidate over all its alias strings. -/
def candScore (input : String) (c : String × List String) : Nat :=
  (c.2.map (tokenScore input)).foldl max 0

/-- The string content of the parsed input value, when it is a string. -/
def inputString : Option JValue → Option String
  | some (.String s) => some s
  | _ => none

/-- The failure result of the string matcher: `noCandidateMatched` listing
every candidate considered (spec section 4.2 step 5). -/
def matchFail (ctx : ParsingContext) (candidates : List (String × List String)) :
    Except ParsingError ValueWithFlags :=
  .error ⟨ctx.scope, .noCandidateMatched (candidates.map (fun c => c.1))⟩

/-- Modelled from the spec: the jsonish `match_string` string matcher used by
enum coercion (its source is missing from the snapshot; algorithm of spec
section 4.2): (1) exact case-sensitive match on any alias wins outright;
(2) else case-insensitive (normalized) exact match; (3) else substring
containment when exactly one candidate contains the normalized input or vice
versa; (4) else token-overlap scoring with a strict best scorer; ties or zero
matches fail with `matchFail`, listing every candidate considered. -/
def match_string (ctx : ParsingContext) (_target : FieldType)
    (value : Option JValue) (candidates : List (String × List String)) :
    Except ParsingError ValueWithFlags :=
  match inputString value with
  | none => matchFail ctx candidates
  | some raw =>
    match candidates.find? (fun c => c.2.contains raw) with
    | some c => .ok ⟨c.1, [.stringMatch .exact]⟩
    | none =>
      match candidates.find? (fun c => c.2.any (fun a => normChars a == normChars raw)) with
      | some c => .ok ⟨c.1, [.stringMatch .caseInsensitive]⟩
      | none =>
        match candidates.filter (fun c => c.2.any (fun a =>
            isSubChars (normChars a) (normChars raw) ||
            isSubChars (normChars raw) (normChars a))) with
        | [c] => .ok ⟨c.1, [.stringMatch .substring]⟩
        | _ =>
          let best := (candidates.map (candScore raw)).foldl max 0
          match candidates.filter (fun c => candScore raw c == best) with
          | [c] =>
              if 0 < best then .ok ⟨c.1, [.stringMatch .scored]⟩
              else matchFail ctx candidates
          | _ => matchFail ctx candidates

/-! ## Constraint checker (spec section 4.3) -/

/-- Modelled from the spec: the jsonish `apply_constraints` constraint
checker, imported by `coerce_enum.rs` from `coerce_class.rs` which is missing
from the snapshot (spec section 4.3). Constraints are processed in
declaration order; a `@check` appends a pass/fail flag and never aborts; a
failing `@assert` aborts with `assertFailed`, discarding the candidate. The
externally supplied constraint-expression evaluator is passed explicitly as
`ev` and is applied to the candidate value with flags discarded. -/
def apply_constraints (target : FieldType) (scope : List String)
    (value : BamlValueWithFlags) (constraints : List Constraint)
    (ev : String → BamlValue → Bool) : Except ParsingError BamlValueWithFlags :=
  match constraints with
  | [] => .ok value
  | c :: rest =>
    match c.level with
    | .check =>
        apply_constraints target scope
          (value.addFlag (.checkResult c.label c.expression
            (ev c.expression (toBamlValue value)))) rest ev
    | .assert =>
        if ev c.expression (toBamlValue value) then
          apply_constraints target scope value rest ev
        else
          .error ⟨scope, .assertFailed c.expression⟩

/-! ## Enum coercion (coerce_enum.rs) -/

/-- Embeds `enum_match_candidates` from `coerce_enum.rs`: each enum value
contributes its real name as the canonical name; its alias strings are the
rendered name alone when the trimmed description is absent or empty, and the
rendered name, the trimmed description, and "rendered: description"
otherwise. -/
def enum_match_candidates (enm : JinjaEnum) : List (String × List String) :=
  enm.values.map (fun nd =>
    (nd.1.real_name,
      match nd.2.map strTrim with
      | some d =>
          if !d.isEmpty then
            [nd.1.rendered_name, d, nd.1.rendered_name ++ ": " ++ d]
          else
            [nd.1.rendered_name]
      | none => [nd.1.rendered_name]))

/-- Embeds `impl TypeCoercer for Enum`'s `coerce` from `coerce_enum.rs`:
fetch the enum's constraints from the registry (defaulting to none), run the
string matcher over the enum's candidates, wrap the matched variant as a
`BamlValueWithFlags::Enum`, and apply the constraints. The debug log line of
the source has no observable effect and is omitted; the external
constraint-expression evaluator is passed explicitly as `ev`. -/
def JinjaEnum.coerce (enm : JinjaEnum) (ctx : ParsingContext)
    (target : FieldType) (value : Option JValue)
    (ev : String → BamlValue → Bool) : Except ParsingError BamlValueWithFlags :=
  let constraints := ((ctx.of.find_enum enm.name.real_name).map
    JinjaEnum.constraints).getD []
  match match_string ctx target value (enum_match_candidates enm) with
  | .error e => .error e
  | .ok variant_match =>
      apply_constraints target [] (.Enum enm.name.real_name variant_match)
        constraints ev

/-! ## Parser database (schema declarations) -/

/-- Modelled from the spec: one declared enum value of the schema contract
(spec section 6), with its resolved `@alias` and `@description` attributes
(the parser-database walkers are missing from the snapshot). -/
structure EnumValueDecl where
  name : String
  aliasAttr : Option String
  description : Option String
deriving DecidableEq, Repr

/-- Modelled from the spec: one declared enum of the schema contract. -/
structure EnumDecl where
  name : String
  values : List EnumValueDecl
  constraints : List Constraint
deriving DecidableEq, Repr

/-! ## schema-ast field types (ast::FieldType) -/

/-- Field arity of the schema AST: a type is required or optional. -/
inductive FieldArity where
  | required
  | optional
deriving DecidableEq, Repr

def FieldArity.is_optional : FieldArity → Bool
  | .required => false
  | .optional => true

/-- Modelled from the spec: the current `ast::Identifier` of the schema AST
(its definition file is missing from the snapshot; its variants are pinned by
the match in `to_raw_field_type`). Spans are dropped. -/
inductive AstIdentifier where
  | ENV (s : String)
  | Ref (fullName : String)
  | Local (name : String)
  | String (s : String)
  | Invalid
deriving DecidableEq, Repr

/-- Modelled from the spec: the current `ast::FieldType` of the schema AST,
as matched by `to_raw_field_type` in `type_convert.rs` and by the tests of
`parse_schema.rs`. Spans and attached attributes are dropped; the boxed
key/value pair of `Map` is two fields. -/
inductive AstFieldType where
  | Symbol (arity : FieldArity) (idn : AstIdentifier)
  | Primitive (arity : FieldArity) (tv : TypeValue)
  | Literal (arity : FieldArity) (v : LiteralValue)
  | List (arity : FieldArity) (inner : AstFieldType) (dims : Nat)
  | Tuple (arity : FieldArity) (inner : List AstFieldType)
  | Union (arity : FieldArity) (inner : List AstFieldType)
  | Map (arity : FieldArity) (key : AstFieldType) (value : AstFieldType)

/-- Modelled from the spec: one declared class field, with its resolved
`@alias` and `@description` attributes and its AST type. -/
structure FieldDecl where
  name : String
  aliasAttr : Option String
  description : Option String
  ftype : AstFieldType

/-- Modelled from the spec: one declared class of the schema contract. -/
structure ClassDecl where
  name : String
  fields : List FieldDecl
  constraints : List Constraint

/-- Modelled from the spec: the validated `ParserDatabase` view used by
`lib.rs` and `type_convert.rs` (missing from the snapshot): the declared
classes, enums and type aliases in declaration order. -/
structure Db where
  classes : List ClassDecl
  enums : List EnumDecl
  aliases : List String

/-- Modelled from the spec: the `TypeWalker` returned by the parser-database
lookups (missing from the snapshot): a declared class, enum or type alias. -/
inductive TypeWalker where
  | cls (name : String)
  | enm (name : String)
  | typeAlias (name : String)
deriving DecidableEq, Repr

/-- Modelled from the spec: `ParserDatabase::find_type_by_str` (missing from
the snapshot): look up a declared class, enum or type alias by name. -/
def Db.find_type_by_str (db : Db) (s : String) : Option TypeWalker :=
  match db.classes.find? (fun c => c.name == s) with
  | some c => some (.cls c.name)
  | none =>
    match db.enums.find? (fun e => e.name == s) with
    | some e => some (.enm e.name)
    | none =>
      match db.aliases.find? (fun a => a == s) with
      | some a => some (.typeAlias a)
      | none => none

/-- Modelled from the spec: `ParserDatabase::find_type` on an identifier
(missing from the snapshot): resolve `Ref`/`Local` identifiers by name;
other identifier kinds resolve to nothing. -/
def Db.find_type (db : Db) (idn : AstIdentifier) : Option TypeWalker :=
  match idn with
  | .Ref x => db.find_type_by_str x
  | .Local x => db.find_type_by_str x
  | _ => none

/-! ## type_convert.rs: to_raw_field_type -/

mutual

/-- Embeds `to_raw_field_type` from `type_convert.rs`: convert a schema-AST
field type to a `baml_types::FieldType`, wrapping in `Optional` when the
arity is optional. A `List` applies `dims` list layers. -/
def to_raw_field_type (ft : AstFieldType) (db : Db) : FieldType :=
  match ft with
  | .Symbol arity idn =>
      let inner :=
        match idn with
        | .ENV _ => FieldType.Primitive .string
        | .Ref x =>
          match db.find_type (.Ref x) with
          | none => FieldType.Primitive .null
          | some (.cls _) => FieldType.Class x
          | some (.enm _) => FieldType.Primitive .string
          | some (.typeAlias _) => FieldType.RecursiveTypeAlias x
        | .Local x =>
          match db.find_type (.Local x) with
          | none => FieldType.Primitive .null
          | some (.cls _) => FieldType.Class x
          | some (.enm _) => FieldType.Enum x
          | some (.typeAlias _) => FieldType.RecursiveTypeAlias x
        | .String _ => FieldType.Primitive .string
        | .Invalid => FieldType.Primitive .null
      if arity.is_optional then .Optional inner else inner
  | .Primitive arity tv =>
      let inner := FieldType.Primitive tv
      if arity.is_optional then .Optional inner else inner
  | .Literal arity v =>
      let inner := FieldType.Literal v
      if arity.is_optional then .Optional inner else inner
  | .List arity inner dims =>
      let t := (List.range dims).foldl (fun acc _ => FieldType.List acc)
        (to_raw_field_type inner db)
      if arity.is_optional then .Optional t else t
  | .Tuple arity ts =>
      let t := FieldType.Tuple (to_raw_list ts db)
      if arity.is_optional then .Optional t else t
  | .Union arity ts =>
      let t := FieldType.Union (to_raw_list ts db)
      if arity.is_optional then .Optional t else t
  | .Map arity k v =>
      let t := FieldType.Map (to_raw_field_type k db) (to_raw_field_type v db)
      if arity.is_optional then .Optional t else t

/-- Element-wise `to_raw_field_type`, the `inner.iter().map(...)` of the
`Tuple` and `Union` arms. -/
def to_raw_list : List AstFieldType → Db → List FieldType
  | [], _ => []
  | t :: ts, db => to_raw_field_type t db :: to_raw_list ts db

end

/-! ## repr.rs: WithRepr<FieldType> for the older ast::FieldType -/

/-- Modelled from the spec: the older `ast::Identifier` matched by
`repr.rs` (its definition is missing from the snapshot): primitives were
still identifiers in that AST. -/
inductive OldIdentifier where
  | ENV (s : String)
  | Ref (path : String)
  | Local (name : String)
  | Primitive (tv : TypeValue)
  | String (s : String)
  | Invalid
deriving DecidableEq, Repr

/-- Modelled from the spec: the older `ast::FieldType` matched by the
`WithRepr<FieldType>` instance in `repr.rs`: `List` and `Dictionary` carry no
arity, and primitives are identifiers. Spans are dropped. -/
inductive OldFieldType where
  | Identifier (arity : FieldArity) (idn : OldIdentifier)
  | List (inner : OldFieldType) (dims : Nat)
  | Dictionary (key : OldFieldType) (value : OldFieldType)
  | Union (arity : FieldArity) (ts : List OldFieldType)
  | Tuple (arity : FieldArity) (ts : List OldFieldType)

/-- Embeds `type_with_arity` from `repr.rs`: wrap in `Optional` for an
optional arity. -/
def type_with_arity (t : FieldType) (arity : FieldArity) : FieldType :=
  match arity with
  | .required => t
  | .optional => .Optional t

/-- Modelled from the spec: the older `ParserDatabase::find_type` used by
`repr.rs`, returning `Either<ClassWalker, EnumWalker>`: a class is `inl`, an
enum is `inr`, anything else resolves to nothing. Derived from the same
declaration lists as `Db.find_type_by_str`. -/
def Db.find_type_old (db : Db) (name : String) : Option (String ⊕ String) :=
  match db.find_type_by_str name with
  | some (.cls n) => some (.inl n)
  | some (.enm n) => some (.inr n)
  | _ => none

mutual

/-- Embeds `WithRepr<FieldType>::repr` from `repr.rs` (the `Ok(match self`
body): identifiers resolve primitives directly and local names through the
database; a `List` always applies at least one list layer (the source's own
"NB: potential bug" comment: `for _ in 1u32..*dims`); a `Dictionary` becomes
a `Map`; a `Union` mixes an optional arity in as an extra `Null` member; a
`Tuple` wraps with `type_with_arity`. -/
def reprFieldType : OldFieldType → Db → Except String FieldType
  | .Identifier arity idn, db =>
      match idn with
      | .Primitive tv => .ok (type_with_arity (.Primitive tv) arity)
      | .Local name =>
          match db.find_type_old name with
          | some (.inl _) => .ok (type_with_arity (.Class name) arity)
          | some (.inr _) => .ok (type_with_arity (.Enum name) arity)
          | none => .error "Field type uses unresolvable local identifier"
      | _ => .error "Field type uses unsupported identifier type"
  | .List ft dims, db =>
      match reprFieldType ft db with
      | .error e => .error e
      | .ok inner =>
          .ok ((List.range (dims - 1)).foldl (fun acc _ => FieldType.List acc)
            (FieldType.List inner))
  | .Dictionary k v, db =>
      match reprFieldType k db with
      | .error e => .error e
      | .ok kr =>
          match reprFieldType v db with
          | .error e => .error e
          | .ok vr => .ok (.Map kr vr)
  | .Union arity ts, db =>
      match reprList ts db with
      | .error e => .error e
      | .ok types =>
          .ok (.Union (if arity.is_optional then
            types ++ [.Primitive .null] else types))
  | .Tuple arity ts, db =>
      match reprList ts db with
      | .error e => .error e
      | .ok types => .ok (type_with_arity (.Tuple types) arity)

/-- Element-wise `repr`, the `t.iter().map(|ft| ft.repr(db)).collect::
<Result<Vec<_>>>()?` of the `Union` and `Tuple` arms: stops at the first
error. -/
def reprList : List OldFieldType → Db → Except String (List FieldType)
  | [], _ => .ok []
  | t :: ts, db =>
      match reprFieldType t db with
      | .error e => .error e
      | .ok r =>
          match reprList ts db with
          | .error e => .error e
          | .ok rs => .ok (r :: rs)

end

mutual

/-- The natural injection of the older AST into the current one: primitives
become `Primitive` nodes, other identifiers become `Symbol` nodes, and the
arity-less `List` and `Dictionary` become required-arity `List` and `Map`.
This is the common domain on which both converters are defined. -/
def toModern : OldFieldType → AstFieldType
  | .Identifier arity (.Primitive tv) => .Primitive arity tv
  | .Identifier arity (.ENV s) => .Symbol arity (.ENV s)
  | .Identifier arity (.Ref s) => .Symbol arity (.Ref s)
  | .Identifier arity (.Local s) => .Symbol arity (.Local s)
  | .Identifier arity (.String s) => .Symbol arity (.String s)
  | .Identifier arity .Invalid => .Symbol arity .Invalid
  | .List t dims => .List .required (toModern t) dims
  | .Dictionary k v => .Map .required (toModern k) (toModern v)
  | .Union arity ts => .Union arity (toModernList ts)
  | .Tuple arity ts => .Tuple arity (toModernList ts)

/-- Element-wise `toModern`. -/
def toModernList : List OldFieldType → List AstFieldType
  | [] => []
  | t :: ts => toModern t :: toModernList ts

end

mutual

/-- The fragment of the older AST on which the two converters can agree:
no list node with `dims = 0` and no optional-arity union node anywhere. -/
def goodOld : OldFieldType → Bool
  | .Identifier _ _ => true
  | .List t dims => decide (0 < dims) && goodOld t
  | .Dictionary k v => goodOld k && goodOld v
  | .Union arity ts => !arity.is_optional && goodOldList ts
  | .Tuple _ ts => goodOldList ts

/-- Element-wise `goodOld`. -/
def goodOldList : List OldFieldType → Bool
  | [] => true
  | t :: ts => goodOld t && goodOldList ts

end

/-! ## lib.rs: BamlContext -/

/-- Embeds the enum part of `BamlContext::build_output_format` from
`lib.rs`: each declared enum value becomes `(Name::new(alias.unwrap_or(name)),
description)` - when an alias attribute is present it replaces the declared
value name - and the enum keeps its name and constraints. The attribute
walkers are external; their resolved alias/description results are fields of
`EnumValueDecl`. -/
def build_output_format_enums (db : Db) : List JinjaEnum :=
  db.enums.map (fun e =>
    { name := Name.new e.name
      values := e.values.map (fun v =>
        (Name.new (v.aliasAttr.getD v.name), v.description))
      constraints := e.constraints })

/-- Embeds the class part of `BamlContext::build_output_format` from
`lib.rs`: each declared field becomes `(Name::new(alias.unwrap_or(name)),
to_raw_field_type(type, db), description)`. -/
def build_output_format_classes (db : Db) : List JinjaClass :=
  db.classes.map (fun c =>
    { name := Name.new c.name
      fields := c.fields.map (fun f =>
        (Name.new (f.aliasAttr.getD f.name), to_raw_field_type f.ftype db,
          f.description))
      constraints := c.constraints })

/-- Embeds `BamlContext::build_output_format` from `lib.rs`: assemble the
output-format registry from the converted enums and classes and the target. -/
def build_output_format (db : Db) (target : FieldType) : OutputFormatContent :=
  ⟨build_output_format_enums db, build_output_format_classes db, target⟩

/-- Modelled from the spec: the outcome of `internal_baml_core::validate`
as consumed by `BamlContext::try_from_schema` (the validation pipeline is
external): the parser database plus whether the diagnostics carry errors,
with their pretty-printed text. -/
structure ValidatedSchema where
  db : Db
  has_errors : Bool
  error_text : String

/-- Embeds the `BamlContext` struct of `lib.rs`. -/
structure BamlContext where
  format : OutputFormatContent
  target : FieldType
  validated_schema : ValidatedSchema

/-- Embeds `BamlContext::build_target_type` from `lib.rs`. With a target
name, the `find_type_by_str` lookup is `unwrap`ped: `none` models the panic
when the name is not declared. Without a target name, the first declared
class wins, else the first declared enum, else an error. -/
def build_target_type (db : Db) (target_name : Option String) :
    Option (Except String FieldType) :=
  match target_name with
  | some s =>
      match db.find_type_by_str s with
      | none => none
      | some (.cls n) => some (.ok (.Class n))
      | some (.enm n) => some (.ok (.Enum n))
      | some (.typeAlias n) => some (.ok (.RecursiveTypeAlias n))
  | none =>
      match db.classes with
      | c :: _ => some (.ok (.Class c.name))
      | [] =>
          match db.enums with
          | e :: _ => some (.ok (.Enum e.name))
          | [] => some (.error "No BAML `class` or `enum` found in the schema")

/-- Embeds `BamlContext::try_from_schema` from `lib.rs`, taking the outcome
of the external `validate` call as input: erroring diagnostics abort with
their pretty-printed text; otherwise the target type and output format are
built. `none` models the panic inside `build_target_type`. -/
def BamlContext.try_from_schema (vs : ValidatedSchema)
    (target_name : Option String) : Option (Except String BamlContext) :=
  if vs.has_errors then some (.error vs.error_text)
  else
    match build_target_type vs.db target_name with
    | none => none
    | some (.error e) => some (.error e)
    | some (.ok target) =>
        some (.ok ⟨build_output_format vs.db target, target, vs⟩)

/-! ## lib.rs: validate_result and JSON serialization -/

def quoteChar : Char := Char.ofNat 34

def backslashChar : Char := Char.ofNat 92

/-- Lower-case hexadecimal digit. -/
def hexDigit (n : Nat) : Char :=
  if n < 10 then Char.ofNat (48 + n) else Char.ofNat (87 + n)

/-- Modelled from the spec: serde_json's escaping of one string character. -/
def jsonEscapeChar (c : Char) : List Char :=
  if c = quoteChar then [backslashChar, quoteChar]
  else if c = backslashChar then [backslashChar, backslashChar]
  else if c = Char.ofNat 10 then [backslashChar, 'n']
  else if c = Char.ofNat 9 then [backslashChar, 't']
  else if c = Char.ofNat 13 then [backslashChar, 'r']
  else if c = Char.ofNat 8 then [backslashChar, 'b']
  else if c = Char.ofNat 12 then [backslashChar, 'f']
  else if c.toNat < 32 then
    [backslashChar, 'u', '0', '0', hexDigit (c.toNat / 16), hexDigit (c.toNat % 16)]
  else [c]

/-- Modelled from the spec: serde_json's escaping of a string body. -/
def jsonEscape (s : String) : List Char := (s.toList.map jsonEscapeChar).flatten

/-- A JSON string literal: quote, escaped body, quote. -/
def jsonQuote (s : String) : String :=
  String.mk (quoteChar :: jsonEscape s ++ [quoteChar])

mutual

/-- Modelled from the spec: `serde_json::json!(&baml_value).to_string()`, the
compact serde serialization of a plain `BamlValue` (its custom `Serialize`
impl is missing from the snapshot). An enum serializes as the JSON string of
its value - the comment in `validate_result`: "Enum result is a JSON
string". -/
def jsonSerialize : BamlValue → String
  | .Null => "null"
  | .Bool true => "true"
  | .Bool false => "false"
  | .Int i => toString i
  | .String s => jsonQuote s
  | .Enum _ v => jsonQuote v
  | .List xs => "[" ++ jsonSerializeList xs ++ "]"

/-- Comma-separated serialization of list elements. -/
def jsonSerializeList : List BamlValue → String
  | [] => ""
  | [x] => jsonSerialize x
  | x :: y :: xs => jsonSerialize x ++ "," ++ jsonSerializeList (y :: xs)

end

/-- Embeds Rust's `str::trim_matches('"')` as used by `validate_result`:
remove every leading and every trailing double-quote character. -/
def trimQuotes (s : String) : String :=
  String.mk (((s.toList.dropWhile (fun c => c = quoteChar)).reverse.dropWhile
    (fun c => c = quoteChar)).reverse)

/-- Embeds `BamlContext::validate_result` from `lib.rs`. The call to
`jsonish::from_str` (missing from the snapshot) is abstracted as the
already-computed coercion result `res`; on success the value is projected to
a plain `BamlValue` (discarding flags), serialized with serde_json, and
stripped of leading/trailing quotes. -/
def BamlContext.validate_result (res : Except ParsingError BamlValueWithFlags) :
    Except ParsingError String :=
  res.map (fun r => trimQuotes (jsonSerialize (toBamlValue r)))

/-! ## parse_schema.rs -/

/-- Modelled from the spec: `internal_baml_diagnostics::SourceFile` (missing
from the snapshot): a path and the source text. -/
structure SourceFile where
  path : String
  contents : String
deriving DecidableEq, Repr

/-- Modelled from the spec: `internal_baml_diagnostics::DatamodelError`
(missing from the snapshot): a validation error or a grammar-parser error.
Spans are dropped. -/
inductive DatamodelError where
  | validationError (message : String)
  | parserError (expected : String)
deriving DecidableEq, Repr

/-- Modelled from the spec: `internal_baml_diagnostics::Diagnostics`
(missing from the snapshot): the accumulated errors for a root path. -/
structure Diagnostics where
  root_path : String
  errors : List DatamodelError
deriving DecidableEq, Repr

def Diagnostics.push_error (d : Diagnostics) (e : DatamodelError) :
    Diagnostics :=
  ⟨d.root_path, d.errors ++ [e]⟩

/-- The `SubType` of a type-expression block (`ast`): class, enum, or some
other sub-type (dropped by `parse_schema`). -/
inductive SubType where
  | Class
  | Enum
  | Other
deriving DecidableEq, Repr

/-- A parsed type-expression block; only the fields read by `parse_schema`
are kept. -/
structure TypeExpressionBlock where
  name : String
  sub_type : SubType
deriving DecidableEq, Repr

/-- The `ValueExprBlockType` of a parsed value-expression block. -/
inductive ValueExprBlockType where
  | Function
  | Test
  | Client
  | RetryPolicy
  | Generator
deriving DecidableEq, Repr

/-- A parsed value-expression block; only the fields read by `parse_schema`
are kept. -/
structure ValueExprBlock where
  name : String
  block_type : ValueExprBlockType
deriving DecidableEq, Repr

/-- A parsed type-alias assignment. -/
structure Assignment where
  identifier : String
deriving DecidableEq, Repr

/-- A parsed template string declaration. -/
structure TemplateString where
  name : String
deriving DecidableEq, Repr

/-- The `Top` level items of the schema AST, as pushed by `parse_schema`
(the source name `Top` collides with a Mathlib class). -/
inductive AstTop where
  | Class (t : TypeExpressionBlock)
  | Enum (t : TypeExpressionBlock)
  | Function (v : ValueExprBlock)
  | TestCase (v : ValueExprBlock)
  | Client (v : ValueExprBlock)
  | RetryPolicy (v : ValueExprBlock)
  | Generator (v : ValueExprBlock)
  | TypeAlias (a : Assignment)
  | TemplateString (t : TemplateString)
deriving DecidableEq, Repr

/-- The schema AST: its top-level definitions. -/
structure SchemaAst where
  tops : List AstTop
deriving DecidableEq, Repr

/-- Modelled from the spec: one top-level pest pair of `Rule::schema`. The
sub-parsers (`parse_type_expression_block` and friends) are external to the
snapshot, so each pair carries its sub-parse outcome directly; fallible
sub-parsers carry an `Except`. -/
inductive ParsePair where
  | type_expression_block (t : TypeExpressionBlock)
  | value_expression_block (v : Except DatamodelError ValueExprBlock)
  | type_alias (a : Assignment)
  | template_declaration (t : Except DatamodelError TemplateString)
  | EOI
  | CATCH_ALL
  | comment_block
  | raw_string_literal
  | empty_lines

/-- Embeds the `while let Some(current) = pairs.next()` loop of
`parse_schema`: dispatch on the rule of each pair, accumulating top-level
definitions and diagnostics; `CATCH_ALL` records an error and breaks.
Pending block comments only affect documentation fields, which are not
modelled. -/
def parseTops : List ParsePair → List AstTop → Diagnostics →
    (List AstTop × Diagnostics)
  | [], tops, diags => (tops, diags)
  | p :: rest, tops, diags =>
    match p with
    | .type_expression_block te =>
        match te.sub_type with
        | .Class => parseTops rest (tops ++ [.Class te]) diags
        | .Enum => parseTops rest (tops ++ [.Enum te]) diags
        | .Other => parseTops rest tops diags
    | .value_expression_block res =>
        match res with
        | .ok val =>
            let top :=
              match val.block_type with
              | .Function => AstTop.Function val
              | .Test => AstTop.TestCase val
              | .Client => AstTop.Client val
              | .RetryPolicy => AstTop.RetryPolicy val
              | .Generator => AstTop.Generator val
            parseTops rest (tops ++ [top]) diags
        | .error e => parseTops rest tops (diags.push_error e)
    | .type_alias a => parseTops rest (tops ++ [.TypeAlias a]) diags
    | .template_declaration res =>
        match res with
        | .ok t => parseTops rest (tops ++ [.TemplateString t]) diags
        | .error e => parseTops rest tops (diags.push_error e)
    | .EOI => parseTops rest tops diags
    | .CATCH_ALL =>
        (tops, diags.push_error (.validationError
          "This line is invalid. It does not start with any known Baml schema keyword."))
    | .comment_block => parseTops rest tops diags
    | .raw_string_literal => parseTops rest tops diags
    | .empty_lines => parseTops rest tops diags

/-- Modelled from the spec: a pest parsing error as consumed by
`parse_schema`: a location and the positive expected rules (rendered by
`get_expected_from_error` as the concatenation of their debug forms). -/
structure PestError where
  positionStart : Nat
  positionEnd : Nat
  positives : List String
deriving DecidableEq, Repr

/-- Embeds Rust's `str::ends_with` as used by `parse_schema` on the source
path (written structurally so that it evaluates by reduction). -/
def strEndsWith (s suffix : String) : Bool :=
  List.isPrefixOf suffix.toList.reverse s.toList.reverse

/-- Embeds `get_expected_from_error` from `parse_schema.rs`: concatenate the
debug renderings of the positive rules with no separator. -/
def get_expected_from_error (positives : List String) : String :=
  String.join positives

/-- Embeds `parse_schema` from `parse_schema.rs`: a source whose path does
not end in `.baml` is rejected with a validation error before the grammar
runs; otherwise the external pest grammar (`BAMLParser::parse`, passed as
`grammar`) is applied to the source text, its pairs are folded by
`parseTops` on success, and its error is converted by
`get_expected_from_error` on failure. `SourceFile::path()` is modelled as
the path string; spans are dropped. -/
def parse_schema (grammar : String → Except PestError (List ParsePair))
    (root_path : String) (source : SourceFile) :
    Except Diagnostics (SchemaAst × Diagnostics) :=
  let diagnostics : Diagnostics := ⟨root_path, []⟩
  if !strEndsWith source.path ".baml" then
    .error (diagnostics.push_error (.validationError
      ("A BAML file must have the file extension `.baml`, but found: " ++
        source.path)))
  else
    match grammar source.contents with
    | .ok pairs =>
        let r := parseTops pairs [] diagnostics
        .ok (⟨r.1⟩, r.2)
    | .error err =>
        .error (diagnostics.push_error
          (.parserError (get_expected_from_error err.positives)))

/-! ## Theorems -/

/-- n-fold application of `FieldType.List`. -/
def nestList : Nat → FieldType → FieldType
  | 0, t => t
  | n + 1, t => FieldType.List (nestList n t)

lemma foldl_range_list (n : Nat) (t : FieldType) :
    (List.range n).foldl (fun acc _ => FieldType.List acc) t = nestList n t := by
  induction n with
  | zero => rfl
  | succ n ih => rw [List.range_succ, List.foldl_append, ih]; rfl

lemma nestList_shift (n : Nat) (t : FieldType) :
    nestList n (FieldType.List t) = nestList (n + 1) t := by
  induction n with
  | zero => rfl
  | succ n ih => simpa [nestList] using congrArg FieldType.List ih

/-- C5: for every AST list type, `WithRepr<FieldType>::repr` wraps the
converted element type in `max(dims, 1)` applications of `FieldType::List`:
at `dims = 0` the result is still exactly one list layer, never the bare
element type and never more than one layer. -/
theorem C5_repr_list_dims (ft : OldFieldType) (dims : Nat) (db : Db) :
    reprFieldType (.List ft dims) db =
      (reprFieldType ft db).map (fun inner => nestList (max dims 1) inner) := by
  cases h : reprFieldType ft db with
  | error e => simp [reprFieldType, h, Except.map]
  | ok inner =>
      simp only [reprFieldType, h, Except.map, foldl_range_list]
      have : nestList (dims - 1) (FieldType.List inner) = nestList (max dims 1) inner := by
        rw [nestList_shift]
        congr 1
        omega
      rw [this]

lemma enum_match_candidates_fst (enm : JinjaEnum) :
    (enum_match_candidates enm).map Prod.fst =
      enm.values.map (fun nd => nd.1.real_name) := by
  simp [enum_match_candidates]

/-- C3 (amended): the candidate list handed to the string matcher by
`Enum::coerce` is exactly: for each enum value the canonical name is the
value's real name, and the alias-string list is `[rendered_name]` when the
value's trimmed description is absent or empty, and `[rendered_name, trimmed
description, "rendered_name: trimmed description"]` when the trimmed
description is non-empty. -/
theorem C3_candidate_list_shape (enm : JinjaEnum) :
    enum_match_candidates enm = enm.values.map (fun nd =>
      (nd.1.real_name,
        match nd.2 with
        | none => [nd.1.rendered_name]
        | some d =>
            if (strTrim d).isEmpty then [nd.1.rendered_name]
            else [nd.1.rendered_name, strTrim d,
              nd.1.rendered_name ++ ": " ++ strTrim d]))
    ∧ (enum_match_candidates enm).map Prod.fst =
        enm.values.map (fun nd => nd.1.real_name) := by
  refine ⟨?_, enum_match_candidates_fst enm⟩
  unfold enum_match_candidates
  congr 1
  funext nd
  cases h : nd.2 with
  | none => simp [h]
  | some d =>
      simp only [h, Option.map_some]
      by_cases he : (strTrim d).isEmpty <;> simp [he]

/-- C3 counterexample: with the description `" blue color "` (surrounding
whitespace) the code builds the alias strings from the trimmed description,
so the candidate list differs from the claim's literal
`[rendered_name, description, "rendered_name: description"]`. -/
theorem C3_counterexample :
    enum_match_candidates
        ⟨Name.new "E", [(Name.new "A", some " blue color ")], []⟩
      = [("A", ["A", "blue color", "A: blue color"])]
    ∧ ([("A", ["A", "blue color", "A: blue color"])] :
          List (String × List String))
        ≠ [("A", ["A", " blue color ", "A:  blue color "])] := by
  constructor
  · decide
  · decide

/-- The spec's `Color` example, `enum Color { RED @alias("r") GREEN }`, as a
declared schema. -/
def colorDb : Db :=
  ⟨[], [⟨"Color", [⟨"RED", some "r", none⟩, ⟨"GREEN", none, none⟩], []⟩], []⟩

/-- The jinja enum `build_output_format` hands to the coercer for `colorDb`. -/
def colorEnumBuilt : JinjaEnum :=
  (build_output_format_enums colorDb).getD 0 ⟨Name.new "", [], []⟩

/-- The parsing context over the `colorDb` registry. -/
def colorCtx : ParsingContext := ⟨build_output_format colorDb (.Enum "Color"), []⟩

/-- C2 (amended): for an enum value declared with an alias,
`build_output_format` builds the value name as `Name::new(alias)`, so the
declared value name is replaced by the alias: the candidate set contains the
alias as its canonical name with the alias as its only alias string, the
declared name is not in the candidate set (when it differs from the alias),
and coercing an input equal to the alias succeeds and resolves to the alias,
not to the declared name. -/
theorem C2_alias_replaces_declared_name (ename vname a : String)
    (hne : vname ≠ a) (ev : String → BamlValue → Bool) :
    build_output_format_enums ⟨[], [⟨ename, [⟨vname, some a, none⟩], []⟩], []⟩
      = [⟨Name.new ename, [(Name.new a, none)], []⟩]
    ∧ enum_match_candidates ⟨Name.new ename, [(Name.new a, none)], []⟩
      = [(a, [a])]
    ∧ vname ∉ ([(a, [a])].map Prod.fst)
    ∧ JinjaEnum.coerce ⟨Name.new ename, [(Name.new a, none)], []⟩
        ⟨build_output_format ⟨[], [⟨ename, [⟨vname, some a, none⟩], []⟩], []⟩
          (.Enum ename), []⟩
        (.Enum ename) (some (.String a)) ev
      = .ok (.Enum ename ⟨a, [.stringMatch .exact]⟩) := by
  refine ⟨by simp [build_output_format_enums], ?_, ?_, ?_⟩
  · simp [enum_match_candidates, Name.new, Name.real_name, Name.rendered_name]
  · simp [hne]
  · simp [JinjaEnum.coerce, build_output_format, build_output_format_enums,
      build_output_format_classes, OutputFormatContent.find_enum, Name.new,
      Name.real_name, match_string, inputString, enum_match_candidates,
      Name.rendered_name, List.find?, List.contains, apply_constraints]

/-- Witness for C2 at the spec's `Color` example. -/
theorem C2_alias_replaces_declared_name_witness :
    ("RED" : String) ≠ "r"
    ∧ (build_output_format_enums
          ⟨[], [⟨"Color", [⟨"RED", some "r", none⟩], []⟩], []⟩
        = [⟨Name.new "Color", [(Name.new "r", none)], []⟩]
      ∧ enum_match_candidates ⟨Name.new "Color", [(Name.new "r", none)], []⟩
        = [("r", ["r"])]
      ∧ "RED" ∉ ([("r", ["r"])].map Prod.fst)
      ∧ JinjaEnum.coerce ⟨Name.new "Color", [(Name.new "r", none)], []⟩
          ⟨build_output_format ⟨[], [⟨"Color", [⟨"RED", some "r", none⟩], []⟩], []⟩
            (.Enum "Color"), []⟩
          (.Enum "Color") (some (.String "r")) (fun _ _ => true)
        = .ok (.Enum "Color" ⟨"r", [.stringMatch .exact]⟩)) :=
  ⟨by decide,
    C2_alias_replaces_declared_name "Color" "RED" "r" (by decide) (fun _ _ => true)⟩

/-- C2 counterexample: for `enum Color { RED @alias("r") GREEN }` the
candidate set built for string matching is `[("r", ["r"]), ("GREEN",
["GREEN"])]` - it does not contain the declared name `RED` - and coercion of
the inputs `"r"` and `"RED"` both resolve to the canonical result `"r"`, not
to the declared value name `RED`. -/
theorem C2_counterexample :
    enum_match_candidates colorEnumBuilt = [("r", ["r"]), ("GREEN", ["GREEN"])]
    ∧ "RED" ∉ (enum_match_candidates colorEnumBuilt).map Prod.fst
    ∧ JinjaEnum.coerce colorEnumBuilt colorCtx (.Enum "Color")
        (some (.String "RED")) (fun _ _ => true)
      = .ok (.Enum "Color" ⟨"r", [.stringMatch .substring]⟩)
    ∧ JinjaEnum.coerce colorEnumBuilt colorCtx (.Enum "Color")
        (some (.String "r")) (fun _ _ => true)
      = .ok (.Enum "Color" ⟨"r", [.stringMatch .exact]⟩)
    ∧ ("r" : String) ≠ "RED" := by
  refine ⟨by decide, by decide, by rfl, by rfl, by decide⟩

lemma match_string_error_shape (ctx : ParsingContext) (target : FieldType)
    (value : Option JValue) (candidates : List (String × List String))
    (e : ParsingError)
    (h : match_string ctx target value candidates = .error e) :
    e = ⟨ctx.scope, .noCandidateMatched (candidates.map (fun c => c.1))⟩ := by
  unfold match_string at h
  split at h
  · exact (Except.error.inj h).symm
  · split at h
    · exact absurd h (by simp)
    · split at h
      · exact absurd h (by simp)
      · split at h
        · exact absurd h (by simp)
        · simp only [matchFail] at h
          split at h
          · split at h
            · exact absurd h (by simp)
            · exact (Except.error.inj h).symm
          · exact (Except.error.inj h).symm

lemma match_string_ok_flags (ctx : ParsingContext) (target : FieldType)
    (value : Option JValue) (candidates : List (String × List String))
    (s : ValueWithFlags)
    (h : match_string ctx target value candidates = .ok s) :
    ∃ k, s.flags = [VFlag.stringMatch k] := by
  unfold match_string at h
  split at h
  · exact absurd h (by simp [matchFail])
  · split at h
    · exact ⟨_, by rw [← Except.ok.inj h]⟩
    · split at h
      · exact ⟨_, by rw [← Except.ok.inj h]⟩
      · split at h
        · exact ⟨_, by rw [← Except.ok.inj h]⟩
        · simp only [matchFail] at h
          split at h
          · split at h
            · exact ⟨_, by rw [← Except.ok.inj h]⟩
            · exact absurd h (by simp)
          · exact absurd h (by simp)

/-- C4: when the string matcher fails on an enum's candidates (zero matches
or an unbreakable tie), `Enum::coerce` propagates exactly that failure; the
failure is a `noCandidateMatched` error whose tried-candidate list is the
canonical-name list of the candidates, and every value of the enum
contributes its real name to that list, so none is omitted from the failure
report. -/
theorem C4_no_match_lists_every_value (enm : JinjaEnum) (ctx : ParsingContext)
    (target : FieldType) (value : Option JValue)
    (ev : String → BamlValue → Bool) (e : ParsingError)
    (h : match_string ctx target value (enum_match_candidates enm) = .error e) :
    JinjaEnum.coerce enm ctx target value ev = .error e
    ∧ e = ⟨ctx.scope, .noCandidateMatched
        ((enum_match_candidates enm).map (fun c => c.1))⟩
    ∧ ∀ nd ∈ enm.values, nd.1.real_name ∈
        ((enum_match_candidates enm).map (fun c => c.1)) := by
  refine ⟨?_, match_string_error_shape _ _ _ _ _ h, ?_⟩
  · simp only [JinjaEnum.coerce, h]
  · intro nd hnd
    simp only [enum_match_candidates, List.map_map, List.mem_map]
    exact ⟨nd, hnd, rfl⟩

/-- The spec's no-alias `Color` example used as the C4 witness input. -/
def c4Enum : JinjaEnum :=
  ⟨Name.new "Color", [(Name.new "RED", none), (Name.new "GREEN", none)], []⟩

/-- A parsing context whose registry holds `c4Enum`. -/
def c4Ctx : ParsingContext := ⟨⟨[c4Enum], [], .Enum "Color"⟩, []⟩

/-- Witness for C4: the input `"blue"` matches neither `RED` nor `GREEN`, and
the propagated failure lists both values as tried candidates. -/
theorem C4_no_match_lists_every_value_witness :
    JinjaEnum.coerce c4Enum c4Ctx (.Enum "Color") (some (.String "blue"))
        (fun _ _ => true)
      = .error ⟨[], .noCandidateMatched ["RED", "GREEN"]⟩
    ∧ "RED" ∈ ((enum_match_candidates c4Enum).map (fun c => c.1))
    ∧ "GREEN" ∈ ((enum_match_candidates c4Enum).map (fun c => c.1)) := by
  have h : match_string c4Ctx (.Enum "Color") (some (.String "blue"))
      (enum_match_candidates c4Enum)
      = .error ⟨[], .noCandidateMatched ["RED", "GREEN"]⟩ := by rfl
  have hmain := C4_no_match_lists_every_value c4Enum c4Ctx (.Enum "Color")
    (some (.String "blue")) (fun _ _ => true) _ h
  exact ⟨hmain.1, hmain.2.2 (Name.new "RED", none) (by simp [c4Enum]),
    hmain.2.2 (Name.new "GREEN", none) (by simp [c4Enum])⟩

lemma toBamlValue_addFlag (v : BamlValueWithFlags) (f : VFlag) :
    toBamlValue (v.addFlag f) = toBamlValue v := by
  cases v <;> rfl

lemma topFlags_addFlag (v : BamlValueWithFlags) (f : VFlag) :
    topFlagsOf (v.addFlag f) = topFlagsOf v ++ [f] := by
  cases v <;> rfl

lemma apply_constraints_ok (t : FieldType) (sc : List String)
    (cs : List Constraint) (v w : BamlValueWithFlags)
    (ev : String → BamlValue → Bool)
    (h : apply_constraints t sc v cs ev = .ok w) :
    (∀ c ∈ cs, c.level = ConstraintLevel.assert →
      ev c.expression (toBamlValue v) = true)
    ∧ toBamlValue w = toBamlValue v
    ∧ (∀ f ∈ topFlagsOf w, f.isAssertFailure = true → f ∈ topFlagsOf v) := by
  induction cs generalizing v with
  | nil =>
      cases Except.ok.inj h
      exact ⟨by simp, rfl, fun f hf _ => hf⟩
  | cons c rest ih =>
      cases hl : c.level with
      | check =>
          have h' : apply_constraints t sc
              (v.addFlag (.checkResult c.label c.expression
                (ev c.expression (toBamlValue v)))) rest ev = .ok w := by
            simpa [apply_constraints, hl] using h
          obtain ⟨h1, h2, h3⟩ := ih _ h'
          refine ⟨?_, ?_, ?_⟩
          · intro c' hc' hlev
            rcases List.mem_cons.1 hc' with rfl | hmem
            · rw [hl] at hlev; cases hlev
            · have := h1 c' hmem hlev
              rwa [toBamlValue_addFlag] at this
          · rw [h2, toBamlValue_addFlag]
          · intro f hf hfail
            have hmem := h3 f hf hfail
            rw [topFlags_addFlag] at hmem
            rcases List.mem_append.1 hmem with hmem | hmem
            · exact hmem
            · simp only [List.mem_singleton] at hmem
              subst hmem
              cases hfail
      | assert =>
          by_cases hev : ev c.expression (toBamlValue v) = true
          · have h' : apply_constraints t sc v rest ev = .ok w := by
              simpa [apply_constraints, hl, hev] using h
            obtain ⟨h1, h2, h3⟩ := ih _ h'
            refine ⟨?_, h2, h3⟩
            intro c' hc' hlev
            rcases List.mem_cons.1 hc' with rfl | hmem
            · exact hev
            · exact h1 c' hmem hlev
          · exfalso
            have : apply_constraints t sc v (c :: rest) ev
                = .error ⟨sc, .assertFailed c.expression⟩ := by
              simp [apply_constraints, hl, hev]
            rw [this] at h
            cases h

/-- The expression of the first failing `@assert` in declaration order, with
checks skipped and passing asserts stepped over (spec section 4.3). -/
def firstFailingAssert (cs : List Constraint)
    (ev : String → BamlValue → Bool) (bv : BamlValue) : Option String :=
  match cs with
  | [] => none
  | c :: rest =>
    match c.level with
    | .check => firstFailingAssert rest ev bv
    | .assert =>
        if ev c.expression bv then firstFailingAssert rest ev bv
        else some c.expression

lemma apply_constraints_first_fail (t : FieldType) (sc : List String)
    (cs : List Constraint) (v : BamlValueWithFlags)
    (ev : String → BamlValue → Bool) (expr : String)
    (h : firstFailingAssert cs ev (toBamlValue v) = some expr) :
    apply_constraints t sc v cs ev = .error ⟨sc, .assertFailed expr⟩ := by
  induction cs generalizing v with
  | nil => simp [firstFailingAssert] at h
  | cons c rest ih =>
      cases hl : c.level with
      | check =>
          have h' : firstFailingAssert rest ev (toBamlValue v) = some expr := by
            simpa [firstFailingAssert, hl] using h
          have := ih (v.addFlag (.checkResult c.label c.expression
            (ev c.expression (toBamlValue v))))
            (by rwa [toBamlValue_addFlag])
          simpa [apply_constraints, hl] using this
      | assert =>
          by_cases hev : ev c.expression (toBamlValue v) = true
          · have h' : firstFailingAssert rest ev (toBamlValue v) = some expr := by
              simpa [firstFailingAssert, hl, hev] using h
            have := ih v h'
            simpa [apply_constraints, hl, hev] using this
          · have hexpr : c.expression = expr := by
              simpa [firstFailingAssert, hl, hev] using h
            subst hexpr
            simp [apply_constraints, hl, hev]

/-- C1: `Enum::coerce` returns `Ok` only when every attached `@assert`
constraint passes: whenever the coercion succeeds, every assert-level
constraint fetched for the enum evaluates to true on the coerced value, and
the returned value carries no fatal assert-failure flag; and whenever the
string match succeeds but some assert fails (witnessed by the first failing
assert in declaration order), `apply_constraints` fails with `AssertFailed`
and `Enum::coerce` propagates exactly that `ParsingError`. -/
theorem C1_assert_gates_enum_coerce (enm : JinjaEnum) (ctx : ParsingContext)
    (target : FieldType) (value : Option JValue)
    (ev : String → BamlValue → Bool) :
    (∀ w, JinjaEnum.coerce enm ctx target value ev = .ok w →
      (∀ c ∈ (((ctx.of.find_enum enm.name.real_name).map
          JinjaEnum.constraints).getD []),
        c.level = ConstraintLevel.assert →
          ev c.expression (toBamlValue w) = true)
      ∧ ∀ f ∈ topFlagsOf w, f.isAssertFailure = false)
    ∧ (∀ s expr,
        match_string ctx target value (enum_match_candidates enm) = .ok s →
        firstFailingAssert (((ctx.of.find_enum enm.name.real_name).map
            JinjaEnum.constraints).getD []) ev
          (.Enum enm.name.real_name s.value) = some expr →
        JinjaEnum.coerce enm ctx target value ev
          = .error ⟨[], .assertFailed expr⟩) := by
  constructor
  · intro w hw
    cases hms : match_string ctx target value (enum_match_candidates enm) with
    | error e =>
        rw [JinjaEnum.coerce, hms] at hw
        cases hw
    | ok s =>
        have happ : apply_constraints target [] (.Enum enm.name.real_name s)
            (((ctx.of.find_enum enm.name.real_name).map
              JinjaEnum.constraints).getD []) ev = .ok w := by
          rw [JinjaEnum.coerce, hms] at hw
          exact hw
        obtain ⟨h1, h2, h3⟩ := apply_constraints_ok _ _ _ _ _ _ happ
        constructor
        · intro c hc hlev
          have := h1 c hc hlev
          rw [h2]
          exact this
        · intro f hf
          cases hb : f.isAssertFailure with
          | false => rfl
          | true =>
              exfalso
              have hmem : f ∈ topFlagsOf (.Enum enm.name.real_name s) :=
                h3 f hf hb
              obtain ⟨k, hk⟩ := match_string_ok_flags _ _ _ _ _ hms
              have hfs : f ∈ s.flags := hmem
              rw [hk] at hfs
              simp only [List.mem_singleton] at hfs
              subst hfs
              cases hb
  · intro s expr hms hff
    rw [JinjaEnum.coerce, hms]
    exact apply_constraints_first_fail _ _ _ _ _ _ hff

/-- A one-value enum used as the C1 witness input. -/
def c1Enum : JinjaEnum := ⟨Name.new "Color", [(Name.new "RED", none)], []⟩

/-- A registry attaching one `@assert` constraint to `c1Enum`. -/
def c1Ctx : ParsingContext :=
  ⟨⟨[⟨Name.new "Color", [(Name.new "RED", none)],
      [⟨.assert, "value > 0", none⟩]⟩], [], .Enum "Color"⟩, []⟩

/-- Witness for C1: under an evaluator that passes every expression the
coercion succeeds and its assert passes with no fatal flag; under one that
fails every expression the same coercion aborts with `AssertFailed`. -/
theorem C1_assert_gates_enum_coerce_witness :
    (((fun (_ : String) (_ : BamlValue) => true) "value > 0"
        (toBamlValue (.Enum "Color" ⟨"RED", [.stringMatch .exact]⟩)) = true)
      ∧ VFlag.isAssertFailure (.stringMatch .exact) = false)
    ∧ JinjaEnum.coerce c1Enum c1Ctx (.Enum "Color") (some (.String "RED"))
        (fun _ _ => false) = .error ⟨[], .assertFailed "value > 0"⟩ := by
  constructor
  · have h := (C1_assert_gates_enum_coerce c1Enum c1Ctx (.Enum "Color")
      (some (.String "RED")) (fun _ _ => true)).1
      (.Enum "Color" ⟨"RED", [.stringMatch .exact]⟩) rfl
    exact ⟨h.1 ⟨.assert, "value > 0", none⟩ (by decide) rfl,
      h.2 (.stringMatch .exact) (by decide)⟩
  · exact (C1_assert_gates_enum_coerce c1Enum c1Ctx (.Enum "Color")
      (some (.String "RED")) (fun _ _ => false)).2
      ⟨"RED", [.stringMatch .exact]⟩ "value > 0" rfl rfl

/-- C8: `Enum::coerce` is deterministic: two invocations with equal enum,
parsing context (hence equal read-only registry), target type, input value
and constraint evaluator return identical results. The Rust receiver and
context are shared immutable borrows in a crate with `deny(unsafe_code)`, so
the embedding is a pure function of exactly these inputs and no mutation of
the registry or context is representable. -/
theorem C8_enum_coerce_deterministic (e₁ e₂ : JinjaEnum)
    (ctx₁ ctx₂ : ParsingContext) (t₁ t₂ : FieldType)
    (v₁ v₂ : Option JValue) (ev₁ ev₂ : String → BamlValue → Bool)
    (he : e₁ = e₂) (hctx : ctx₁ = ctx₂) (ht : t₁ = t₂) (hv : v₁ = v₂)
    (hev : ev₁ = ev₂) :
    JinjaEnum.coerce e₁ ctx₁ t₁ v₁ ev₁ = JinjaEnum.coerce e₂ ctx₂ t₂ v₂ ev₂ := by
  subst he; subst hctx; subst ht; subst hv; subst hev; rfl

/-- Witness for C8 at a concrete coercion. -/
theorem C8_enum_coerce_deterministic_witness :
    JinjaEnum.coerce ⟨Name.new "E", [(Name.new "A", none)], []⟩
        ⟨⟨[], [], .Enum "E"⟩, []⟩ (.Enum "E") (some (.String "A"))
        (fun _ _ => true)
      = JinjaEnum.coerce ⟨Name.new "E", [(Name.new "A", none)], []⟩
        ⟨⟨[], [], .Enum "E"⟩, []⟩ (.Enum "E") (some (.String "A"))
        (fun _ _ => true) :=
  C8_enum_coerce_deterministic _ _ _ _ _ _ _ _ _ _ rfl rfl rfl rfl rfl

/-- Characters that serde_json serializes as themselves: not a quote, not a
backslash, not a control character. -/
def jsonPlainChars (s : String) : Bool :=
  s.toList.all (fun c =>
    decide (c ≠ quoteChar ∧ c ≠ backslashChar ∧ 32 ≤ c.toNat))

lemma jsonEscapeChar_plain (c : Char) (h1 : c ≠ quoteChar)
    (h2 : c ≠ backslashChar) (h3 : 32 ≤ c.toNat) :
    jsonEscapeChar c = [c] := by
  have hn10 : ¬ c = Char.ofNat 10 := fun h => by
    subst h; exact absurd h3 (by decide)
  have hn9 : ¬ c = Char.ofNat 9 := fun h => by
    subst h; exact absurd h3 (by decide)
  have hn13 : ¬ c = Char.ofNat 13 := fun h => by
    subst h; exact absurd h3 (by decide)
  have hn8 : ¬ c = Char.ofNat 8 := fun h => by
    subst h; exact absurd h3 (by decide)
  have hn12 : ¬ c = Char.ofNat 12 := fun h => by
    subst h; exact absurd h3 (by decide)
  have hnlt : ¬ c.toNat < 32 := by omega
  unfold jsonEscapeChar
  rw [if_neg h1, if_neg h2, if_neg hn10, if_neg hn9, if_neg hn13, if_neg hn8,
    if_neg hn12, if_neg hnlt]

lemma jsonEscape_plain_list (cs : List Char)
    (h : ∀ c ∈ cs, c ≠ quoteChar ∧ c ≠ backslashChar ∧ 32 ≤ c.toNat) :
    (cs.map jsonEscapeChar).flatten = cs := by
  induction cs with
  | nil => rfl
  | cons c cs ih =>
      obtain ⟨h1, h2, h3⟩ := h c (List.mem_cons_self c cs)
      simp only [List.map_cons, List.flatten_cons,
        jsonEscapeChar_plain c h1 h2 h3]
      rw [ih (fun x hx => h x (List.mem_cons_of_mem c hx))]
      rfl

lemma dropWhile_all_false {α : Type} (p : α → Bool) (l : List α)
    (h : ∀ x ∈ l, p x = false) : l.dropWhile p = l := by
  cases l with
  | nil => rfl
  | cons a l =>
      rw [List.dropWhile_cons, h a (List.mem_cons_self a l)]
      simp

lemma trim_quote_wrap (cs : List Char) (h : ∀ c ∈ cs, c ≠ quoteChar) :
    ((((quoteChar :: cs) ++ [quoteChar]).dropWhile
        (fun c => c = quoteChar)).reverse.dropWhile
      (fun c => c = quoteChar)).reverse = cs := by
  cases cs with
  | nil => simp [List.dropWhile_cons]
  | cons c cs =>
      have hc : (decide (c = quoteChar)) = false :=
        decide_eq_false (h c (List.mem_cons_self c cs))
      have hrev : (c :: (cs ++ [quoteChar])).reverse
          = quoteChar :: (cs.reverse ++ [c]) := by simp
      have hrest : ∀ x ∈ cs.reverse ++ [c],
          (fun c => decide (c = quoteChar)) x = false := by
        intro x hx
        rcases List.mem_append.1 hx with hx | hx
        · exact decide_eq_false
            (h x (List.mem_cons_of_mem c (List.mem_reverse.1 hx)))
        · rw [List.mem_singleton] at hx
          subst hx
          exact hc
      rw [List.cons_append, List.dropWhile_cons]
      simp only [decide_True, if_true, List.cons_append, List.dropWhile_cons,
        hc, Bool.false_eq_true, if_false]
      rw [hrev, List.dropWhile_cons]
      simp only [decide_True, if_true]
      rw [dropWhile_all_false _ _ hrest]
      simp

lemma trimQuotes_jsonQuote (s : String) (h : jsonPlainChars s = true) :
    trimQuotes (jsonQuote s) = s := by
  have hall : ∀ c ∈ s.toList,
      c ≠ quoteChar ∧ c ≠ backslashChar ∧ 32 ≤ c.toNat := by
    intro c hc
    exact of_decide_eq_true (List.all_eq_true.1 h c hc)
  have hesc : jsonEscape s = s.toList :=
    jsonEscape_plain_list s.toList hall
  show String.mk _ = s
  unfold jsonQuote
  rw [hesc]
  show String.mk (((((quoteChar :: s.toList) ++ [quoteChar]).dropWhile
      (fun c => c = quoteChar)).reverse.dropWhile
    (fun c => c = quoteChar)).reverse) = s
  rw [trim_quote_wrap s.toList (fun c hc => (hall c hc).1)]
  rfl

/-- C7: on every successful coercion, `validate_result` returns the
serde_json serialization of the coerced value projected to a plain
`BamlValue` - a projection that discards flags - with every leading and
trailing double-quote trimmed; in particular enum and string results whose
payload has no character needing escaping come back as the bare payload,
without surrounding quotes. -/
theorem C7_validate_result_shape (r : BamlValueWithFlags) (f : VFlag)
    (ename s : String) (fl : List VFlag)
    (hplain : jsonPlainChars s = true) :
    BamlContext.validate_result (.ok r)
      = .ok (trimQuotes (jsonSerialize (toBamlValue r)))
    ∧ toBamlValue (r.addFlag f) = toBamlValue r
    ∧ BamlContext.validate_result (.ok (.Enum ename ⟨s, fl⟩)) = .ok s
    ∧ BamlContext.validate_result (.ok (.String s fl)) = .ok s := by
  refine ⟨rfl, toBamlValue_addFlag r f, ?_, ?_⟩
  · show Except.ok (trimQuotes (jsonSerialize
        (toBamlValue (.Enum ename ⟨s, fl⟩)))) = .ok s
    rw [show toBamlValue (.Enum ename ⟨s, fl⟩) = BamlValue.Enum ename s from rfl]
    rw [show jsonSerialize (BamlValue.Enum ename s) = jsonQuote s from rfl]
    rw [trimQuotes_jsonQuote s hplain]
  · show Except.ok (trimQuotes (jsonSerialize
        (toBamlValue (.String s fl)))) = .ok s
    rw [show toBamlValue (.String s fl) = BamlValue.String s from rfl]
    rw [show jsonSerialize (BamlValue.String s) = jsonQuote s from rfl]
    rw [trimQuotes_jsonQuote s hplain]

/-- Witness for C7 at a concrete flagged enum result. -/
theorem C7_validate_result_shape_witness :
    jsonPlainChars "RED" = true
    ∧ (BamlContext.validate_result
          (.ok (.Enum "Color" ⟨"RED", [.stringMatch .exact]⟩))
        = .ok (trimQuotes (jsonSerialize
            (toBamlValue (.Enum "Color" ⟨"RED", [.stringMatch .exact]⟩))))
      ∧ toBamlValue ((BamlValueWithFlags.Enum "Color"
            ⟨"RED", [.stringMatch .exact]⟩).addFlag
          (.checkResult none "c" true))
        = toBamlValue (.Enum "Color" ⟨"RED", [.stringMatch .exact]⟩)
      ∧ BamlContext.validate_result
          (.ok (.Enum "Color" ⟨"RED", [.stringMatch .exact]⟩)) = .ok "RED"
      ∧ BamlContext.validate_result
          (.ok (.String "RED" [.stringMatch .exact])) = .ok "RED") :=
  ⟨by decide,
    C7_validate_result_shape (.Enum "Color" ⟨"RED", [.stringMatch .exact]⟩)
      (.checkResult none "c" true) "Color" "RED" [.stringMatch .exact]
      (by decide)⟩

/-- C9: after a validation run without errors, `try_from_schema` with no
target name returns the context for the first declared class when one
exists, else for the first declared enum, else the "no class or enum" error;
and with a target name the unwrapped `find_type_by_str` lookup makes the
call complete without panicking exactly when the name is declared as a
class, enum or type alias. -/
theorem C9_target_type_selection (vs : ValidatedSchema)
    (h : vs.has_errors = false) :
    (∀ c rest, vs.db.classes = c :: rest →
      BamlContext.try_from_schema vs none
        = some (.ok ⟨build_output_format vs.db (.Class c.name),
            .Class c.name, vs⟩))
    ∧ (∀ e rest, vs.db.classes = [] → vs.db.enums = e :: rest →
      BamlContext.try_from_schema vs none
        = some (.ok ⟨build_output_format vs.db (.Enum e.name),
            .Enum e.name, vs⟩))
    ∧ (vs.db.classes = [] → vs.db.enums = [] →
      BamlContext.try_from_schema vs none
        = some (.error "No BAML `class` or `enum` found in the schema"))
    ∧ (∀ s, (BamlContext.try_from_schema vs (some s)).isSome
        ↔ (vs.db.find_type_by_str s).isSome) := by
  refine ⟨?_, ?_, ?_, ?_⟩
  · intro c rest hc
    simp [BamlContext.try_from_schema, h, build_target_type, hc]
  · intro e rest hc he
    simp [BamlContext.try_from_schema, h, build_target_type, hc, he]
  · intro hc he
    simp [BamlContext.try_from_schema, h, build_target_type, hc, he]
  · intro s
    cases hf : vs.db.find_type_by_str s with
    | none => simp [BamlContext.try_from_schema, h, build_target_type, hf]
    | some w =>
        cases w <;>
          simp [BamlContext.try_from_schema, h, build_target_type, hf]

/-- A validated schema with one class `A` and one enum `E`, the C9 witness. -/
def vs9 : ValidatedSchema :=
  ⟨⟨[⟨"A", [], []⟩], [⟨"E", [], []⟩], []⟩, false, ""⟩

/-- Witness for C9: the first class wins with no target name, and the
panic-freedom equivalence holds at a declared and at an undeclared name. -/
theorem C9_target_type_selection_witness :
    BamlContext.try_from_schema vs9 none
      = some (.ok ⟨build_output_format vs9.db (.Class "A"), .Class "A", vs9⟩)
    ∧ ((BamlContext.try_from_schema vs9 (some "E")).isSome
        ↔ (vs9.db.find_type_by_str "E").isSome)
    ∧ ((BamlContext.try_from_schema vs9 (some "Missing")).isSome
        ↔ (vs9.db.find_type_by_str "Missing").isSome) :=
  ⟨(C9_target_type_selection vs9 rfl).1 ⟨"A", [], []⟩ [] rfl,
    (C9_target_type_selection vs9 rfl).2.2.2 "E",
    (C9_target_type_selection vs9 rfl).2.2.2 "Missing"⟩

/-- C10: a source whose path does not end in `.baml` is rejected with the
file-extension validation error and the result does not depend on the
grammar at all (the pest parser is not consulted); a source whose path ends
in `.baml` has its result determined by the grammar's answer on the source
text: pairs are folded into the AST on success and the pest error is
converted into a parser-error diagnostic on failure. -/
theorem C10_extension_gate (g₁ g₂ : String → Except PestError (List ParsePair))
    (root : String) (src : SourceFile) :
    (strEndsWith src.path ".baml" = false →
      parse_schema g₁ root src = parse_schema g₂ root src
      ∧ parse_schema g₁ root src = .error ⟨root,
          [.validationError
            ("A BAML file must have the file extension `.baml`, but found: "
              ++ src.path)]⟩)
    ∧ (strEndsWith src.path ".baml" = true →
      (∀ pairs, g₁ src.contents = .ok pairs →
        parse_schema g₁ root src
          = .ok (⟨(parseTops pairs [] ⟨root, []⟩).1⟩,
              (parseTops pairs [] ⟨root, []⟩).2))
      ∧ (∀ err, g₁ src.contents = .error err →
        parse_schema g₁ root src = .error ⟨root,
          [.parserError (get_expected_from_error err.positives)]⟩)) := by
  constructor
  · intro hbad
    constructor
    · simp [parse_schema, hbad]
    · simp [parse_schema, hbad, Diagnostics.push_error]
  · intro hgood
    constructor
    · intro pairs hp
      simp [parse_schema, hgood, hp]
    · intro err he
      simp [parse_schema, hgood, he, Diagnostics.push_error]

/-- Witness for C10: a `.txt` path is rejected identically under two
different grammars, and a `.baml` path surfaces the grammar's error. -/
theorem C10_extension_gate_witness :
    strEndsWith "schema.txt" ".baml" = false
    ∧ parse_schema (fun _ => .ok []) "" ⟨"schema.txt", "class A"⟩
      = parse_schema (fun _ => .error ⟨0, 0, ["schema"]⟩) ""
          ⟨"schema.txt", "class A"⟩
    ∧ parse_schema (fun _ => .ok []) "" ⟨"schema.txt", "class A"⟩
      = .error ⟨"",
          [.validationError
            ("A BAML file must have the file extension `.baml`, but found: "
              ++ "schema.txt")]⟩
    ∧ strEndsWith "a.baml" ".baml" = true
    ∧ parse_schema (fun _ => .error ⟨0, 0, ["schema"]⟩) "" ⟨"a.baml", "x"⟩
      = .error ⟨"", [.parserError (get_expected_from_error ["schema"])]⟩ := by
  refine ⟨by decide, ?_, ?_, by decide, ?_⟩
  · exact ((C10_extension_gate (fun _ => .ok [])
      (fun _ => .error ⟨0, 0, ["schema"]⟩) "" ⟨"schema.txt", "class A"⟩).1
      (by decide)).1
  · exact ((C10_extension_gate (fun _ => .ok [])
      (fun _ => .error ⟨0, 0, ["schema"]⟩) "" ⟨"schema.txt", "class A"⟩).1
      (by decide)).2
  · exact ((C10_extension_gate (fun _ => .error ⟨0, 0, ["schema"]⟩)
      (fun _ => .error ⟨0, 0, ["schema"]⟩) "" ⟨"a.baml", "x"⟩).2
      (by decide)).2 ⟨0, 0, ["schema"]⟩ rfl
lemma arity_sizeOf (a : FieldArity) : sizeOf a = 1 := by cases a <;> rfl

lemma agree_list_step (n : Nat)
    (ih : ∀ old : OldFieldType, sizeOf old ≤ n →
      ∀ (db : Db) (r : FieldType), goodOld old = true →
        reprFieldType old db = .ok r →
        to_raw_field_type (toModern old) db = r) :
    ∀ (ts : List OldFieldType), sizeOf ts ≤ n →
    ∀ (db : Db) (rs : List FieldType), goodOldList ts = true →
      reprList ts db = .ok rs →
      to_raw_list (toModernList ts) db = rs := by
  intro ts
  induction ts with
  | nil =>
      intro _ db rs _ h
      unfold reprList at h
      cases Except.ok.inj h
      rfl
  | cons t ts ihl =>
      intro hsz db rs hgood h
      unfold reprList at h
      cases hr : reprFieldType t db with
      | error e => rw [hr] at h; cases h
      | ok r1 =>
          rw [hr] at h
          cases hrest : reprList ts db with
          | error e => rw [hrest] at h; cases h
          | ok rs' =>
              rw [hrest] at h
              cases Except.ok.inj h
              have hg : goodOld t = true ∧ goodOldList ts = true := by
                simpa [goodOldList, Bool.and_eq_true] using hgood
              have hszc : sizeOf (t :: ts) = 1 + sizeOf t + sizeOf ts := by
                simp
              have hszt : sizeOf t ≤ n := by omega
              have hszts : sizeOf ts ≤ n := by omega
              have h1 := ih t hszt db r1 hg.1 hr
              have h2 := ihl hszts db rs' hg.2 hrest
              show to_raw_field_type (toModern t) db ::
                to_raw_list (toModernList ts) db = r1 :: rs'
              rw [h1, h2]

lemma converters_agree_aux : ∀ (n : Nat) (old : OldFieldType),
    sizeOf old ≤ n →
    ∀ (db : Db) (r : FieldType), goodOld old = true →
      reprFieldType old db = .ok r →
      to_raw_field_type (toModern old) db = r := by
  intro n
  induction n with
  | zero =>
      intro old hsz
      exfalso
      cases old <;> simp_all
  | succ n ih =>
      intro old hsz db r hgood hrepr
      cases old with
      | Identifier arity idn =>
          cases idn with
          | Primitive tv =>
              have hr : type_with_arity (.Primitive tv) arity = r := by
                simpa [reprFieldType] using hrepr
              cases arity <;>
                simp [toModern, to_raw_field_type, type_with_arity,
                  FieldArity.is_optional] at hr ⊢ <;> exact hr
          | Local name =>
              cases hf : db.find_type_old name with
              | none => simp [reprFieldType, hf] at hrepr
              | some w =>
                  cases w with
                  | inl cn =>
                      have hr : type_with_arity (.Class name) arity = r := by
                        simpa [reprFieldType, hf] using hrepr
                      have hfs : db.find_type_by_str name = some (.cls cn) := by
                        unfold Db.find_type_old at hf
                        cases hts : db.find_type_by_str name with
                        | none => rw [hts] at hf; cases hf
                        | some w' =>
                            rw [hts] at hf
                            cases w' with
                            | cls m => cases Option.some.inj hf; rfl
                            | enm m => cases hf
                            | typeAlias m => cases hf
                      cases arity <;>
                        simp [toModern, to_raw_field_type, Db.find_type, hfs,
                          type_with_arity, FieldArity.is_optional] at hr ⊢ <;>
                        exact hr
                  | inr en =>
                      have hr : type_with_arity (.Enum name) arity = r := by
                        simpa [reprFieldType, hf] using hrepr
                      have hfs : db.find_type_by_str name = some (.enm en) := by
                        unfold Db.find_type_old at hf
                        cases hts : db.find_type_by_str name with
                        | none => rw [hts] at hf; cases hf
                        | some w' =>
                            rw [hts] at hf
                            cases w' with
                            | cls m => cases hf
                            | enm m => cases Option.some.inj hf; rfl
                            | typeAlias m => cases hf
                      cases arity <;>
                        simp [toModern, to_raw_field_type, Db.find_type, hfs,
                          type_with_arity, FieldArity.is_optional] at hr ⊢ <;>
                        exact hr
          | ENV s => simp [reprFieldType] at hrepr
          | Ref s => simp [reprFieldType] at hrepr
          | String s => simp [reprFieldType] at hrepr
          | Invalid => simp [reprFieldType] at hrepr
      | List t dims =>
          have hg : 0 < dims ∧ goodOld t = true := by
            simpa [goodOld, Bool.and_eq_true] using hgood
          unfold reprFieldType at hrepr
          cases hr : reprFieldType t db with
          | error e => rw [hr] at hrepr; cases hrepr
          | ok inner =>
              rw [hr] at hrepr
              have hrr := Except.ok.inj hrepr
              have hszc : sizeOf (OldFieldType.List t dims)
                  = 1 + sizeOf t + sizeOf dims := by simp
              have hszt : sizeOf t ≤ n := by omega
              have ht := ih t hszt db inner hg.2 hr
              show to_raw_field_type (.List .required (toModern t) dims) db = r
              unfold to_raw_field_type
              simp only [FieldArity.is_optional, Bool.false_eq_true, if_false]
              rw [ht, foldl_range_list]
              rw [foldl_range_list, nestList_shift] at hrr
              rw [← hrr]
              congr 1
              omega
      | Dictionary k v =>
          have hg : goodOld k = true ∧ goodOld v = true := by
            simpa [goodOld, Bool.and_eq_true] using hgood
          unfold reprFieldType at hrepr
          cases hk : reprFieldType k db with
          | error e => rw [hk] at hrepr; cases hrepr
          | ok kr =>
              rw [hk] at hrepr
              cases hv : reprFieldType v db with
              | error e => rw [hv] at hrepr; cases hrepr
              | ok vr =>
                  rw [hv] at hrepr
                  have hrr := Except.ok.inj hrepr
                  have hszc : sizeOf (OldFieldType.Dictionary k v)
                      = 1 + sizeOf k + sizeOf v := by simp
                  have h1 := ih k (by omega) db kr hg.1 hk
                  have h2 := ih v (by omega) db vr hg.2 hv
                  show to_raw_field_type (.Map .required (toModern k)
                    (toModern v)) db = r
                  unfold to_raw_field_type
                  simp only [FieldArity.is_optional, Bool.false_eq_true,
                    if_false]
                  rw [h1, h2, hrr]
      | Union arity ts =>
          have hg : arity.is_optional = false ∧ goodOldList ts = true := by
            simpa [goodOld, Bool.and_eq_true] using hgood
          unfold reprFieldType at hrepr
          cases hrl : reprList ts db with
          | error e => rw [hrl] at hrepr; cases hrepr
          | ok types =>
              rw [hrl] at hrepr
              rw [hg.1] at hrepr
              have hrr : FieldType.Union types = r := by simpa using hrepr
              have hszc : sizeOf (OldFieldType.Union arity ts)
                  = 1 + sizeOf arity + sizeOf ts := by simp
              have hsa : sizeOf arity = 1 := arity_sizeOf arity
              have hlist := agree_list_step n ih ts (by omega) db types
                hg.2 hrl
              show to_raw_field_type (.Union arity (toModernList ts)) db = r
              unfold to_raw_field_type
              cases arity with
              | required =>
                  simp only [FieldArity.is_optional, Bool.false_eq_true,
                    if_false]
                  rw [hlist, hrr]
              | optional => cases hg.1
      | Tuple arity ts =>
          have hg : goodOldList ts = true := by
            simpa [goodOld] using hgood
          unfold reprFieldType at hrepr
          cases hrl : reprList ts db with
          | error e => rw [hrl] at hrepr; cases hrepr
          | ok types =>
              rw [hrl] at hrepr
              have hrr := Except.ok.inj hrepr
              have hszc : sizeOf (OldFieldType.Tuple arity ts)
                  = 1 + sizeOf arity + sizeOf ts := by simp
              have hsa : sizeOf arity = 1 := arity_sizeOf arity
              have hlist := agree_list_step n ih ts (by omega) db types
                hg hrl
              show to_raw_field_type (.Tuple arity (toModernList ts)) db = r
              unfold to_raw_field_type
              cases arity <;>
                simp only [FieldArity.is_optional, Bool.false_eq_true,
                  if_false, if_true] <;>
                rw [hlist] <;>
                rw [← hrr] <;>
                simp [type_with_arity]


/-- C6 (amended): the two AST-to-FieldType converters agree on every field
type of the common (older) AST that contains no list node with `dims = 0`
and no optional-arity union node: whenever `repr` succeeds on such a type,
`to_raw_field_type` produces the same `FieldType` on its modern image. At a
`dims = 0` list the two differ (`repr` still produces one list layer while
`to_raw_field_type` produces the bare element type), and at an
optional-arity union they differ (`repr` appends `Null` to the union while
`to_raw_field_type` wraps the union in `Optional`). -/
theorem C6_converters_agree_amended (old : OldFieldType) (db : Db)
    (r : FieldType) (hgood : goodOld old = true)
    (hrepr : reprFieldType old db = .ok r) :
    to_raw_field_type (toModern old) db = r :=
  converters_agree_aux (sizeOf old) old le_rfl db r hgood hrepr

/-- Witness for C6 on a one-dimensional integer list (`dims = 1`). -/
theorem C6_converters_agree_amended_witness :
    goodOld (.List (.Identifier .required (.Primitive .int)) 1) = true
    ∧ reprFieldType (.List (.Identifier .required (.Primitive .int)) 1)
        ⟨[], [], []⟩ = .ok (.List (.Primitive .int))
    ∧ to_raw_field_type
        (toModern (.List (.Identifier .required (.Primitive .int)) 1))
        ⟨[], [], []⟩ = .List (.Primitive .int) :=
  ⟨by decide, rfl,
    C6_converters_agree_amended
      (.List (.Identifier .required (.Primitive .int)) 1) ⟨[], [], []⟩
      (.List (.Primitive .int)) (by decide) rfl⟩

/-- C6 counterexample: on `int[]` with `dims = 0` the two converters
disagree: `repr` yields a one-dimensional list while `to_raw_field_type`
yields the bare element type; and on an optional union `(int | string)?`
they disagree: `repr` yields `Union [int, string, null]` while
`to_raw_field_type` yields `Optional (Union [int, string])`. -/
theorem C6_counterexample :
    reprFieldType (.List (.Identifier .required (.Primitive .int)) 0)
        ⟨[], [], []⟩ = .ok (.List (.Primitive .int))
    ∧ to_raw_field_type
        (toModern (.List (.Identifier .required (.Primitive .int)) 0))
        ⟨[], [], []⟩ = .Primitive .int
    ∧ FieldType.List (.Primitive .int) ≠ FieldType.Primitive .int
    ∧ reprFieldType (.Union .optional
          [.Identifier .required (.Primitive .int),
            .Identifier .required (.Primitive .string)]) ⟨[], [], []⟩
      = .ok (.Union [.Primitive .int, .Primitive .string, .Primitive .null])
    ∧ to_raw_field_type (toModern (.Union .optional
          [.Identifier .required (.Primitive .int),
            .Identifier .required (.Primitive .string)])) ⟨[], [], []⟩
      = .Optional (.Union [.Primitive .int, .Primitive .string])
    ∧ FieldType.Union [.Primitive .int, .Primitive .string, .Primitive .null]
      ≠ FieldType.Optional (.Union [.Primitive .int, .Primitive .string]) := by
  refine ⟨rfl, rfl, ?_, rfl, rfl, ?_⟩
  · intro h
    cases h
  · intro h
    cases h
